import Mathlib

/-
Verification of the Aristotle evidence-acquisition core against its design
description.  The Python modules `scholar_api.py`, `my_chroma.py` and
`my_agent.py` are shallowly embedded below: pure data manipulation becomes
Lean functions, the module-level caches and the Chroma collection become
explicit state arguments, and outbound HTTP traffic becomes an oracle
function supplied by the caller.
-/

namespace Aristotle

/-! ## Python string primitives

`str.strip()` removes leading and trailing whitespace; Python's whitespace
set for `strip`/`isspace` is the ASCII control whitespace plus the Unicode
space separators, listed here by code point. -/

def pySpaceCodes : List Nat :=
  [9, 10, 11, 12, 13, 28, 29, 30, 31, 32, 133, 160, 5760,
   8192, 8193, 8194, 8195, 8196, 8197, 8198, 8199, 8200, 8201, 8202,
   8232, 8233, 8239, 8287, 12288]

def pyIsSpace (c : Char) : Bool := pySpaceCodes.contains c.toNat

def pyStrip (s : String) : String :=
  String.mk (((s.data.dropWhile pyIsSpace).reverse.dropWhile pyIsSpace).reverse)

/-- Python `x or y` for an optional string `x`: `None` and `""` are falsy. -/
def pyOrS : Option String → String → String
  | some s, d => if s = "" then d else s
  | none, d => d

/-! ## my_chroma._normalize_paper_to_doc_meta

Raw provider payloads are untyped dicts; the fields this core reads are
modelled as optional fields.  The `authors` entries may be dicts carrying a
`name`, plain strings, or anything else (skipped); the venue field may be a
dict (truthy iff non-empty) or a string. -/

inductive AuthorEntry
  | obj (name : Option String)
  | str (s : String)
  | other
deriving DecidableEq

inductive VenueVal
  | vstr (s : String)
  | vobj (name : Option String) (displayName : Option String) (hasEntries : Bool)
deriving DecidableEq

def venueTruthy : VenueVal → Bool
  | .vstr s => s ≠ ""
  | .vobj _ _ hasEntries => hasEntries

/-- Python `x or y` where `x` is an optional dict-or-string venue field. -/
def pyOrV : Option VenueVal → VenueVal → VenueVal
  | some v, d => if venueTruthy v then v else d
  | none, d => d

structure RawPaper where
  paperId : Option String := none
  paper_id : Option String := none
  title : Option String := none
  abstract : Option String := none
  url : Option String := none
  year : Option Int := none
  publicationVenue : Option VenueVal := none
  venue : Option VenueVal := none
  referenceCount : Option Int := none
  citationCount : Option Int := none
  authors : List AuthorEntry := []
deriving DecidableEq

/-- Metadata values are strings or ints (year and the two counts). -/
inductive MetaVal
  | s (v : String)
  | i (n : Int)
deriving DecidableEq

/-- `if isinstance(a, dict) and a.get("name"): ... elif isinstance(a, str): ...` -/
def authorName : AuthorEntry → Option String
  | .obj (some n) => if n = "" then none else some (pyStrip n)
  | .obj none => none
  | .str s => some (pyStrip s)
  | .other => none

def venueString (v : VenueVal) : String :=
  match v with
  | .vobj n d _ => pyStrip (pyOrS n (pyOrS d ""))
  | .vstr s => pyStrip s

/-- The id used both for skipping and as the index key:
`(p.get("paperId") or p.get("paper_id") or "").strip()`. -/
def pidOf (p : RawPaper) : String := pyStrip (pyOrS p.paperId (pyOrS p.paper_id ""))

/-- The metadata dict after dropping `None` values and empty strings
(non-string values are kept regardless of falsiness, as in the source). -/
def metaFilter (l : List (String × Option MetaVal)) : List (String × MetaVal) :=
  l.filterMap fun kv =>
    match kv.2 with
    | none => none
    | some (.s v) => if v = "" then none else some (kv.1, .s v)
    | some (.i n) => some (kv.1, .i n)

def _normalize_paper_to_doc_meta (p : RawPaper) (topic : Option String := none) :
    String × List (String × MetaVal) :=
  let title := pyStrip (pyOrS p.title "")
  let url := pyStrip (pyOrS p.url "")
  let abstract := pyStrip (pyOrS p.abstract "")
  let venue_field := pyOrV p.publicationVenue (pyOrV p.venue (.vstr ""))
  let venue := venueString venue_field
  let authors_str := String.intercalate ", " (p.authors.filterMap authorName)
  let doc_parts := [title]
      ++ (if abstract ≠ "" then [abstract] else [])
      ++ (if url ≠ "" then [url] else [])
  let doc := if doc_parts.isEmpty then title else String.intercalate "\n\n" doc_parts
  let meta := metaFilter
    [("paperId", some (.s (pidOf p))),
     ("title", some (.s title)),
     ("url", some (.s url)),
     ("abstract", some (.s abstract)),
     ("authors", some (.s authors_str)),
     ("year", p.year.map .i),
     ("venue", some (.s venue)),
     ("referenceCount", p.referenceCount.map .i),
     ("citationCount", p.citationCount.map .i),
     ("topic", some (.s (pyOrS topic ""))),
     ("source", some (.s "Semantic Scholar"))]
  (doc, meta)

/-! ## my_chroma.upsert_papers

`_batched` mirrors the islice-based generator; with size 0 the first islice
is already empty, so no batch is produced.  The effect of `upsert_papers`
on the collection is the ordered list of (id, document, metadata) writes it
performs. -/

def _batched {α : Type} : List α → Nat → List (List α)
  | _, 0 => []
  | [], _ + 1 => []
  | x :: xs, n + 1 => (x :: xs).take (n + 1) :: _batched (xs.drop n) (n + 1)
termination_by l _ => l.length
decreasing_by
  simp only [List.length_cons, List.length_drop]
  omega

abbrev IndexWrite := String × String × List (String × MetaVal)

def upsert_papers (papers : List RawPaper) (topic : Option String := none)
    (batch_size : Nat := 100) : List IndexWrite :=
  ((_batched papers batch_size).map fun batch =>
    batch.filterMap fun p =>
      let pid := pidOf p
      if pid = "" then none
      else some (pid, _normalize_paper_to_doc_meta p topic)).flatten

/-! ## my_chroma.get_query_texts and get_by_ids

The Chroma collection's `query` is abstracted as an oracle
`store : String → Int → QueryResult`; the Bool in the result records
whether the store was accessed at all. -/

structure QueryResult where
  ids : List (List String)
  distances : List (List ℚ)
  metadatas : List (List (List (String × MetaVal)))
  documents : List (List String)
deriving DecidableEq

def emptyQueryResult : QueryResult :=
  { ids := [[]], distances := [[]], metadatas := [[]], documents := [[]] }

def get_query_texts (store : String → Int → QueryResult) (query : String)
    (n_results : Int := 5) : QueryResult × Bool :=
  if query = "" ∨ pyStrip query = "" then (emptyQueryResult, false)
  else (store query (max 1 n_results), true)

/-! ## my_chroma.ensure_indexed

The source is a bare `return`: a placeholder that performs no fetching and
no upsert whatsoever.  The semantic index is modelled by the list of ids it
currently holds; `ensure_indexed` returns it unchanged. -/

def ensure_indexed (index : List String) (topics_or_ids : List String) : List String :=
  index

/-! ## my_chroma.audit_abstracts -/

/-- `s.startswith(pattern)` on the underlying character lists. -/
def startsWithChars : List Char → List Char → Bool
  | [], _ => true
  | _ :: _, [] => false
  | p :: ps, c :: cs => p = c && startsWithChars ps cs

def is_url (s : String) : Bool :=
  startsWithChars "http://".data s.data || startsWithChars "https://".data s.data

/-- Python `doc.split("\n\n")`: split on non-overlapping occurrences of the
two-newline separator, scanning left to right and keeping empty pieces. -/
def splitNN : List Char → List (List Char)
  | [] => [[]]
  | '\n' :: '\n' :: rest => [] :: splitNN rest
  | c :: rest =>
    match splitNN rest with
    | [] => [[c]]
    | p :: ps => (c :: p) :: ps

/-- `[p.strip() for p in doc.split("\n\n") if p and p.strip()]` -/
def docParts (doc : String) : List String :=
  (((splitNN doc.data).map String.mk).filter fun p => p ≠ "" && pyStrip p ≠ "").map pyStrip

/-- The document-structure fallback test used by the audit scan. -/
def hasAbstractInDoc (doc : String) : Bool :=
  let parts := docParts doc
  if 3 ≤ parts.length && is_url (parts.getLastD "") then true
  else if 2 ≤ parts.length && !is_url (parts.getD 1 "") then true
  else false

/-- One stored record as seen by the audit scan: its id, the `abstract`
metadata entry coalesced to a string, and the stored document. -/
structure ChromaRecord where
  id : String
  metaAbstract : String
  doc : String
deriving DecidableEq

def recordHasAbstract (metaAbstract doc : String) : Bool :=
  pyStrip metaAbstract ≠ "" || hasAbstractInDoc doc

structure AuditReport where
  total : Nat
  with_abstract : Nat
  without_abstract : Nat
  missing_ids : List String
deriving DecidableEq

def auditStep (cap : Nat) (acc : Nat × List String) (r : ChromaRecord) : Nat × List String :=
  if recordHasAbstract r.metaAbstract r.doc then (acc.1 + 1, acc.2)
  else if acc.2.length < cap then (acc.1, acc.2 ++ [r.id])
  else acc

def audit_abstracts (records : List ChromaRecord) (sample_missing : Int := 20) :
    AuditReport :=
  let st := records.foldl (auditStep (max 0 sample_missing).toNat) (0, [])
  { total := records.length
    with_abstract := st.1
    without_abstract := records.length - st.1
    missing_ids := st.2 }

/-! ## scholar_api._request_with_backoff

Each attempt's observable outcome is the HTTP status code the provider
answers with, given by the oracle `f : ℕ → ℕ` (attempt index ↦ status).
`raise_for_status` raises exactly for statuses in [400, 600).  The model
returns the outcome together with the list of back-off delays slept, in
seconds (exact rationals). -/

inductive FetchOutcome
  | ok (attempt : Nat)
  | exhausted
  | httpError (attempt : Nat) (status : Nat)
deriving DecidableEq

def backoffAux (f : Nat → Nat) : Nat → Nat → ℚ → FetchOutcome × List ℚ
  | _, 0, _ => (.exhausted, [])
  | i, n + 1, delay =>
    let s := f i
    if s = 429 then
      let r := backoffAux f (i + 1) n (min (delay * 2) 4)
      (r.1, delay :: r.2)
    else if 400 ≤ s ∧ s < 600 then
      if 500 ≤ s ∧ s < 600 ∧ 1 ≤ n then
        let r := backoffAux f (i + 1) n (min (delay * 2) 4)
        (r.1, delay :: r.2)
      else (.httpError i s, [])
    else (.ok i, [])

def _request_with_backoff (f : Nat → Nat) (max_retries : Nat := 3) :
    FetchOutcome × List ℚ :=
  backoffAux f 0 max_retries (1 / 2)

/-! ## scholar_api.get_references

`get_paper` (the only fetch `get_references` performs) is abstracted as an
oracle `env : String → Option PaperData`; the reference cache is explicit
state.  The Bool in the result records whether `get_paper` was invoked. -/

structure RefRaw where
  isDict : Bool := true
  paperId : Option String := none
  title : Option String := none
  url : Option String := none
  year : Option Int := none
deriving DecidableEq

structure RefOut where
  paperId : String
  title : String
  url : String
  year : Option Int
deriving DecidableEq

def mkRefOut (r : RefRaw) : RefOut :=
  { paperId := pyStrip (pyOrS r.paperId "")
    title := pyStrip (pyOrS r.title "")
    url := pyStrip (pyOrS r.url "")
    year := r.year }

structure PaperData where
  references : List RefRaw := []
deriving DecidableEq

structure SchState where
  refs_cache : List (String × List RefOut) := []
deriving DecidableEq

def get_references (env : String → Option PaperData) (st : SchState)
    (paper_id : String) (limit : Int := 100) : List RefOut × SchState × Bool :=
  match st.refs_cache.lookup paper_id with
  | some cached => (cached.take (max 1 limit).toNat, st, false)
  | none =>
    match env paper_id with
    | none => ([], st, true)
    | some data =>
      let out := ((data.references.take (max 1 limit).toNat).filter
        fun r => r.isDict).map mkRefOut
      (out, { refs_cache := st.refs_cache ++ [(paper_id, out)] }, true)

/-! ## scholar_api.find_basis_paper

The search call is abstracted as its outcome: a transport-level failure
(any `requests.RequestException`, including a non-2xx raised by
`raise_for_status`) or a JSON body with a `total` and a `data` list. -/

inductive SearchOutcome
  | transportError
  | response (total : Nat) (data : List RawPaper)

inductive PyError
  | valueError
deriving DecidableEq

def find_basis_paper (api_key_configured : Bool) (topic : String)
    (outcome : SearchOutcome) : Except PyError (List RawPaper) :=
  if topic = "" then .error .valueError
  else if !api_key_configured then .error .valueError
  else
    match outcome with
    | .transportError => .ok []
    | .response total data => if total = 0 then .ok [] else .ok data

/-! ## my_agent._collect_evidence_from_references

`sch.get_references(pid, limit)` is abstracted as an oracle
`env : String → Int → List RefOut` (the memoization cache makes repeated
calls deterministic within a run, so any per-run behaviour is an instance
of some `env`).  The `seen` set always holds exactly the ids already in
`evidence_ids`, so the evidence list itself serves as the membership test.
The hop-2 `break` statements only skip the remaining iterations, because
`added2` never decreases; they are therefore modelled by guarding each
iteration on the counter. -/

def ridOf (r : RefOut) : String := pyStrip r.paperId

/-- One hop-1 insertion: `if rid and rid not in seen: add`. -/
def addIfNew (acc : List String) (rid : String) : List String :=
  if rid ≠ "" ∧ rid ∉ acc then acc ++ [rid] else acc

def hop1Collect (env : String → Int → List RefOut) (hop1_cap : Int)
    (primary_ids : List String) : List String :=
  (primary_ids.take 5).foldl
    (fun acc pid =>
      ((env pid hop1_cap).take hop1_cap.toNat).foldl
        (fun a r => addIfNew a (ridOf r)) acc)
    []

/-- One hop-2 outer iteration, threading (evidence list, added2 counter). -/
def hop2Step (env : String → Int → List RefOut) (hop2_cap_total : Nat)
    (hop2_per_seed : Int) (st : List String × Nat) (rid : String) :
    List String × Nat :=
  if hop2_cap_total ≤ st.2 then st
  else
    ((env rid hop2_per_seed).take hop2_per_seed.toNat).foldl
      (fun s r2 =>
        if hop2_cap_total ≤ s.2 then s
        else if ridOf r2 ≠ "" ∧ ridOf r2 ∉ s.1 then (s.1 ++ [ridOf r2], s.2 + 1)
        else s)
      st

def _collect_evidence_from_references (env : String → Int → List RefOut)
    (index : List String) (primary_ids : List String) (max_refs : Int := 100) :
    List String × List String :=
  let hop1_cap : Int := max 5 (min 20 max_refs)
  let hop2_cap_total : Int := max 5 (min 20 (Int.fdiv max_refs 2))
  let hop2_per_seed : Int := max 3 (min 10 hop2_cap_total)
  let ev1 := hop1Collect env hop1_cap primary_ids
  let st := (ev1.take hop1_cap.toNat).foldl
    (hop2Step env hop2_cap_total.toNat hop2_per_seed) (ev1, 0)
  (st.1, ensure_indexed index st.1)

/-! ## General lemmas -/

theorem foldl_preserve {α σ : Type} (P : σ → Prop) (f : σ → α → σ)
    (hf : ∀ s a, P s → P (f s a)) :
    ∀ (l : List α) (s : σ), P s → P (l.foldl f s) := by
  intro l
  induction l with
  | nil => intro s hs; exact hs
  | cons a l ih => intro s hs; exact ih _ (hf _ _ hs)

theorem pyStrip_eq_empty (s : String) (h : ∀ c ∈ s.data, pyIsSpace c = true) :
    pyStrip s = "" := by
  unfold pyStrip
  rw [List.dropWhile_eq_nil_iff.mpr h]
  rfl

/-- Concrete oracle: paper A cites paper B; nothing else has references. -/
def envTwoSeeds : String → Int → List RefOut := fun pid _ =>
  if pid = "A" then [{ paperId := "B", title := "", url := "", year := none }] else []

/-! ## Claim theorems -/

/-- C1 counterexample: with seeds `["A", "B"]` where A's reference list is
`[B]`, the expander returns `["B"]`, which contains the seed id `"B"` —
the claim that the result "contains none of the seed ids" is false on the
code, because seeds are never added to the `seen` set and no seed-exclusion
test is performed. -/
theorem c1_counterexample :
    (_collect_evidence_from_references envTwoSeeds [] ["A", "B"] 100).1 = ["B"] ∧
    "B" ∈ (["A", "B"] : List String) := by decide

/-- C3 counterexample: on the same run, the returned evidence set contains
`"B"` but the index (empty before the call) still does not contain `"B"`
afterwards, because `ensure_indexed` is a bare `return` — so the claim that
every returned id is present in the semantic index, with missing ids
fetched and upserted, is false on the code. -/
theorem c3_counterexample :
    "B" ∈ (_collect_evidence_from_references envTwoSeeds [] ["A", "B"] 100).1 ∧
    "B" ∉ (_collect_evidence_from_references envTwoSeeds [] ["A", "B"] 100).2 := by
  decide

/-- C3 (amended): `ensure_indexed` is unconditionally a no-op placeholder —
it performs no fetch and no upsert for any input, so the index is returned
unchanged and evidence ids are merely assumed, never made, present. -/
theorem c3_ensure_indexed_noop (index topics_or_ids : List String) :
    ensure_indexed index topics_or_ids = index := rfl

/-- C6: a query that is empty or all-whitespace makes `get_query_texts`
return exactly the empty structured result, with no access to the
underlying store (the access flag is `false` and the result does not
depend on the store oracle). -/
theorem c6_blank_query_empty_result (store : String → Int → QueryResult)
    (query : String) (n_results : Int) (h : ∀ c ∈ query.data, pyIsSpace c = true) :
    get_query_texts store query n_results =
      ({ ids := [[]], distances := [[]], metadatas := [[]], documents := [[]] }, false) := by
  unfold get_query_texts
  rw [if_pos (Or.inr (pyStrip_eq_empty query h))]
  rfl

/-- C6 witness: the blank query `" \t"` with `k = 5` against a non-trivial
store yields the empty structured result without store access. -/
theorem c6_blank_query_witness :
    get_query_texts
      (fun _ _ => { ids := [["x"]], distances := [[0]],
                    metadatas := [[[]]], documents := [["d"]] })
      " \t" 5 =
      ({ ids := [[]], distances := [[]], metadatas := [[]], documents := [[]] }, false) :=
  c6_blank_query_empty_result _ _ _ (by decide)

/-- The audit's abstract-presence test, as the design document words it. -/
def specWithAbstract (metaAbstract doc : String) : Prop :=
  pyStrip metaAbstract ≠ "" ∨
    (3 ≤ (docParts doc).length ∧ is_url ((docParts doc).getLastD "") = true) ∨
    (2 ≤ (docParts doc).length ∧ is_url ((docParts doc).getD 1 "") = false)

theorem hasAbstractInDoc_eq (doc : String) :
    hasAbstractInDoc doc =
      ((decide (3 ≤ (docParts doc).length) && is_url ((docParts doc).getLastD "")) ||
       (decide (2 ≤ (docParts doc).length) && !is_url ((docParts doc).getD 1 ""))) := by
  unfold hasAbstractInDoc
  cases h1 : (decide (3 ≤ (docParts doc).length) && is_url ((docParts doc).getLastD "")) <;>
    cases h2 : (decide (2 ≤ (docParts doc).length) && !is_url ((docParts doc).getD 1 "")) <;>
      simp_all

theorem audit_foldl_fst (cap : Nat) (records : List ChromaRecord) :
    ∀ acc : Nat × List String,
      (records.foldl (auditStep cap) acc).1 =
        acc.1 + (records.filter fun r => recordHasAbstract r.metaAbstract r.doc).length := by
  induction records with
  | nil => intro acc; simp
  | cons r rs ih =>
    intro acc
    rw [List.foldl_cons, ih]
    unfold auditStep
    cases h : recordHasAbstract r.metaAbstract r.doc with
    | true => simp [h]; omega
    | false =>
      simp [h]
      split <;> simp

/-- C7: a record is classified "with abstract" iff its metadata abstract is
non-empty after stripping, or the document splits into ≥ 3 non-empty
trimmed parts with a URL last, or ≥ 2 parts with the second not a URL;
`audit_abstracts` counts exactly the records passing this test, and the
record with document `"Title\n\nhttps://x"` and empty metadata abstract is
classified as without abstract. -/
theorem c7_audit_classification :
    (∀ metaAbstract doc, recordHasAbstract metaAbstract doc = true ↔
        specWithAbstract metaAbstract doc) ∧
    (∀ (records : List ChromaRecord) (s : Int),
        (audit_abstracts records s).with_abstract =
          (records.filter fun r => recordHasAbstract r.metaAbstract r.doc).length) ∧
    recordHasAbstract "" "Title\n\nhttps://x" = false := by
  refine ⟨?_, ?_, by decide⟩
  · intro metaAbstract doc
    unfold recordHasAbstract specWithAbstract
    rw [hasAbstractInDoc_eq]
    simp [Bool.or_eq_true, Bool.and_eq_true]
  · intro records s
    have h := audit_foldl_fst (max 0 s).toNat records (0, [])
    simpa [audit_abstracts] using h

/-- The document text the design document describes: the non-empty members
of {title, abstract, url}, joined by the separator. -/
def specDocOf (p : RawPaper) : String :=
  String.intercalate "\n\n"
    ([pyStrip (pyOrS p.title ""), pyStrip (pyOrS p.abstract ""),
      pyStrip (pyOrS p.url "")].filter fun s => s ≠ "")

/-- C9 counterexample: for a paper with no title and abstract `"AB"`, the
code produces the document `"\n\nAB"` — the empty title still contributes
an empty leading part and a separator — while the claimed
join-of-non-empty-members would be `"AB"`. -/
theorem c9_counterexample :
    (_normalize_paper_to_doc_meta { abstract := some "AB" } none).1 = "\n\nAB" ∧
    specDocOf { abstract := some "AB" } = "AB" ∧
    ("\n\nAB" : String) ≠ "AB" := by decide

/-- C9 (amended): the document text is the stripped title — included
unconditionally, even when empty — followed by exactly the non-empty
members of {stripped abstract, stripped url} in that order, all joined by
`"\n\n"`. -/
theorem c9_document_layout (p : RawPaper) (topic : Option String) :
    (_normalize_paper_to_doc_meta p topic).1 =
      String.intercalate "\n\n"
        (pyStrip (pyOrS p.title "") ::
          ([pyStrip (pyOrS p.abstract ""), pyStrip (pyOrS p.url "")].filter
            fun s => s ≠ "")) := by
  unfold _normalize_paper_to_doc_meta
  by_cases ha : pyStrip (pyOrS p.abstract "") = "" <;>
    by_cases hu : pyStrip (pyOrS p.url "") = "" <;>
      simp [ha, hu, List.filter]

/-- C10: `find_basis_paper` raises `ValueError` whenever the topic is empty
or the API key is not configured; once both guards pass it always returns a
list, and in particular returns the empty list on a transport error. -/
theorem c10_find_basis_paper_guards (api_key_configured : Bool) (topic : String)
    (outcome : SearchOutcome) :
    ((topic = "" ∨ api_key_configured = false) →
      find_basis_paper api_key_configured topic outcome = .error .valueError) ∧
    (topic ≠ "" → api_key_configured = true →
      find_basis_paper api_key_configured topic .transportError = .ok [] ∧
      ∃ papers, find_basis_paper api_key_configured topic outcome = .ok papers) := by
  constructor
  · rintro (h | h)
    · simp [find_basis_paper, h]
    · subst h
      simp [find_basis_paper]
  · intro ht hc
    subst hc
    refine ⟨by simp [find_basis_paper, ht], ?_⟩
    cases outcome with
    | transportError => exact ⟨[], by simp [find_basis_paper, ht]⟩
    | response total data =>
      by_cases h0 : total = 0
      · exact ⟨[], by simp [find_basis_paper, ht, h0]⟩
      · exact ⟨data, by simp [find_basis_paper, ht, h0]⟩

theorem lookup_append_right {β : Type} (l l' : List (String × β)) (a : String)
    (h : l.lookup a = none) : (l ++ l').lookup a = l'.lookup a := by
  induction l with
  | nil => rfl
  | cons kv l ih =>
    cases hb : (a == kv.1) with
    | true => simp [List.lookup, hb] at h
    | false =>
      simp only [List.lookup, hb] at h
      simpa [List.lookup, hb] using ih h

/-- A reference cache holding one entry with a single reference. -/
def stOneCached : SchState :=
  { refs_cache := [("P", [{ paperId := "r", title := "", url := "", year := none }])] }

/-- C4 counterexample: with `["r"]` cached for `"P"`, `get_references` with
`limit = 0` returns 1 item (the code takes a prefix of length
`max(1, limit)`), while the claimed length `min(limit, cached length)`
would be `min 0 1 = 0`. -/
theorem c4_counterexample :
    ((get_references (fun _ => none) stOneCached "P" 0).1).length = 1 ∧
    min (Int.toNat 0)
      ([({ paperId := "r", title := "", url := "", year := none } : RefOut)]).length = 0 := by
  decide

/-- C4 (amended): on a cache hit, `get_references` returns a prefix of the
cached list of length `min(max(1, limit), cached length)` and performs no
fetch, leaving the state unchanged; and fetching with limit 3 (a
successful fetch, which caches at most 3 references) followed by a call
with limit 10 on the same id returns at most 3 items the second time. -/
theorem c4_get_references_cache (env : String → Option PaperData) (st : SchState)
    (paper_id : String) :
    (∀ (limit : Int) (cached : List RefOut),
        st.refs_cache.lookup paper_id = some cached →
        get_references env st paper_id limit =
          (cached.take (max 1 limit).toNat, st, false) ∧
        (cached.take (max 1 limit).toNat).length =
          min (max 1 limit).toNat cached.length) ∧
    (∀ data : PaperData, st.refs_cache.lookup paper_id = none →
        env paper_id = some data →
        ((get_references env (get_references env st paper_id 3).2.1 paper_id 10).1).length ≤ 3) := by
  constructor
  · intro limit cached hc
    unfold get_references
    rw [hc]
    exact ⟨rfl, List.length_take _ _⟩
  · intro data hc henv
    have h1 : (get_references env st paper_id 3).2.1 =
        { refs_cache := st.refs_cache ++
            [(paper_id, ((data.references.take (max 1 (3 : Int)).toNat).filter
              fun r => r.isDict).map mkRefOut)] } := by
      unfold get_references
      rw [hc, henv]
    rw [h1]
    unfold get_references
    rw [lookup_append_right _ _ _ hc]
    simp only [List.lookup, beq_self_eq_true]
    calc ((((data.references.take (max 1 (3 : Int)).toNat).filter
            fun r => r.isDict).map mkRefOut).take (max 1 (10 : Int)).toNat).length
        ≤ (((data.references.take (max 1 (3 : Int)).toNat).filter
            fun r => r.isDict).map mkRefOut).length := by
          rw [List.length_take]
          exact min_le_right _ _
      _ ≤ (data.references.take (max 1 (3 : Int)).toNat).length := by
          rw [List.length_map]
          exact List.length_filter_le _ _
      _ ≤ (max 1 (3 : Int)).toNat := List.length_take_le _ _
      _ = 3 := rfl

/-- C4 witness: a cache hit with limit 7 on a one-element cached list
returns the whole cached list without fetching. -/
theorem c4_get_references_cache_witness :
    get_references (fun _ => none) stOneCached "P" 7 =
      ([{ paperId := "r", title := "", url := "", year := none }], stOneCached, false) := by
  have h := ((c4_get_references_cache (fun _ => none) stOneCached "P").1 7
    [{ paperId := "r", title := "", url := "", year := none }] (by decide)).1
  rw [h]
  decide

theorem batched_flatten {α : Type} : ∀ (l : List α) (n : Nat),
    (_batched l (n + 1)).flatten = l
  | [], n => by rw [_batched]; rfl
  | x :: xs, n => by
    rw [_batched, List.flatten_cons, batched_flatten (xs.drop n) n,
      List.take_succ_cons, List.cons_append, List.take_append_drop]
termination_by l _ => l.length
decreasing_by
  simp only [List.length_cons, List.length_drop]
  omega

theorem flatten_map_filterMap {α β : Type} (g : α → Option β) (L : List (List α)) :
    (L.map fun l => l.filterMap g).flatten = L.flatten.filterMap g := by
  induction L with
  | nil => rfl
  | cons l L ih =>
    rw [List.map_cons, List.flatten_cons, List.flatten_cons, List.filterMap_append, ih]

/-- C8: `upsert_papers` with the default batch size 100 performs exactly
the writes for the records whose extracted id is non-empty after
stripping, in order, with the same overall effect as a single unbatched
write (the flattened batch writes equal one filterMap over the whole
list); consequently no write carries an empty id. -/
theorem c8_upsert_skips_empty_ids (papers : List RawPaper) (topic : Option String) :
    upsert_papers papers topic 100 =
      papers.filterMap (fun p =>
        if pidOf p = "" then none
        else some (pidOf p, _normalize_paper_to_doc_meta p topic)) ∧
    ∀ w ∈ upsert_papers papers topic 100, w.1 ≠ "" := by
  have h1 : upsert_papers papers topic 100 =
      papers.filterMap (fun p =>
        if pidOf p = "" then none
        else some (pidOf p, _normalize_paper_to_doc_meta p topic)) := by
    unfold upsert_papers
    rw [flatten_map_filterMap, show (100 : Nat) = 99 + 1 from rfl,
      batched_flatten papers 99]
  refine ⟨h1, ?_⟩
  intro w hw
  rw [h1] at hw
  obtain ⟨p, _, hgp⟩ := List.mem_filterMap.mp hw
  by_cases hpid : pidOf p = ""
  · simp [hpid] at hgp
  · rw [if_neg hpid] at hgp
    obtain rfl := Option.some_injective _ hgp
    exact hpid

/-- C8 witness: a record whose id strips to empty is skipped while a
well-formed record is written. -/
theorem c8_upsert_witness :
    upsert_papers [{ paperId := some " " },
      { paperId := some "X", title := some "T" }] none 100 =
      [("X", _normalize_paper_to_doc_meta { paperId := some "X", title := some "T" } none)] := by
  rw [(c8_upsert_skips_empty_ids
    [{ paperId := some " " }, { paperId := some "X", title := some "T" }] none).1]
  decide

/-! Invariants of the two-hop expansion folds. -/

theorem addIfNew_nodup (acc : List String) (rid : String) (h : acc.Nodup) :
    (addIfNew acc rid).Nodup := by
  unfold addIfNew
  split
  · rename_i hc
    rw [List.nodup_append]
    refine ⟨h, List.nodup_singleton _, ?_⟩
    intro a ha hb
    rw [List.mem_singleton] at hb
    subst hb
    exact hc.2 ha
  · exact h

theorem addIfNew_ne (acc : List String) (rid : String)
    (h : ∀ x ∈ acc, x ≠ "") : ∀ x ∈ addIfNew acc rid, x ≠ "" := by
  unfold addIfNew
  split
  · rename_i hc
    intro x hx
    rw [List.mem_append, List.mem_singleton] at hx
    rcases hx with hx | rfl
    · exact h x hx
    · exact hc.1
  · exact h

theorem addIfNew_length (acc : List String) (rid : String) :
    (addIfNew acc rid).length ≤ acc.length + 1 := by
  unfold addIfNew
  split
  · simp
  · exact Nat.le_succ _

theorem foldl_addIfNew_props (rs : List RefOut) :
    ∀ acc : List String,
      (acc.Nodup → (rs.foldl (fun a r => addIfNew a (ridOf r)) acc).Nodup) ∧
      ((∀ x ∈ acc, x ≠ "") →
        ∀ x ∈ rs.foldl (fun a r => addIfNew a (ridOf r)) acc, x ≠ "") ∧
      (rs.foldl (fun a r => addIfNew a (ridOf r)) acc).length ≤ acc.length + rs.length := by
  induction rs with
  | nil => intro acc; exact ⟨id, fun h => h, Nat.le_add_right _ _⟩
  | cons r rs ih =>
    intro acc
    refine ⟨?_, ?_, ?_⟩
    · intro h
      exact (ih _).1 (addIfNew_nodup _ _ h)
    · intro h
      exact (ih _).2.1 (addIfNew_ne _ _ h)
    · have h1 := (ih (addIfNew acc (ridOf r))).2.2
      have h2 := addIfNew_length acc (ridOf r)
      simp only [List.foldl_cons, List.length_cons]
      omega

theorem hop1Collect_props (env : String → Int → List RefOut) (cap : Int)
    (seeds : List String) :
    (hop1Collect env cap seeds).Nodup ∧
    (∀ x ∈ hop1Collect env cap seeds, x ≠ "") ∧
    (hop1Collect env cap seeds).length ≤ 5 * cap.toNat := by
  have main : ∀ (l : List String) (acc : List String),
      acc.Nodup → (∀ x ∈ acc, x ≠ "") →
      ((l.foldl (fun acc pid => ((env pid cap).take cap.toNat).foldl
          (fun a r => addIfNew a (ridOf r)) acc) acc).Nodup ∧
        (∀ x ∈ l.foldl (fun acc pid => ((env pid cap).take cap.toNat).foldl
          (fun a r => addIfNew a (ridOf r)) acc) acc, x ≠ "") ∧
        (l.foldl (fun acc pid => ((env pid cap).take cap.toNat).foldl
          (fun a r => addIfNew a (ridOf r)) acc) acc).length ≤
          acc.length + l.length * cap.toNat) := by
    intro l
    induction l with
    | nil =>
      intro acc h1 h2
      exact ⟨h1, h2, by simp⟩
    | cons pid l ih =>
      intro acc h1 h2
      simp only [List.foldl_cons]
      have hin := foldl_addIfNew_props ((env pid cap).take cap.toNat) acc
      obtain ⟨g1, g2, g3⟩ := ih _ (hin.1 h1) (hin.2.1 h2)
      refine ⟨g1, g2, ?_⟩
      have hb : ((env pid cap).take cap.toNat).length ≤ cap.toNat :=
        List.length_take_le _ _
      have hstep := hin.2.2
      have hexp : (l.length + 1) * cap.toNat = l.length * cap.toNat + cap.toNat := by
        ring
      simp only [List.length_cons]
      omega
  obtain ⟨hn, hne, hlen⟩ := main (seeds.take 5) [] List.nodup_nil (by simp)
  simp only [List.length_nil, Nat.zero_add] at hlen
  have htk : (seeds.take 5).length ≤ 5 := List.length_take_le _ _
  have hmul : (seeds.take 5).length * cap.toNat ≤ 5 * cap.toNat :=
    Nat.mul_le_mul_right cap.toNat htk
  unfold hop1Collect
  exact ⟨hn, hne, le_trans hlen hmul⟩

theorem hop2Step_preserve (env : String → Int → List RefOut) (cap : Nat) (per : Int)
    (b : Nat) :
    ∀ (st : List String × Nat) (rid : String),
      (st.1.Nodup ∧ (∀ x ∈ st.1, x ≠ "") ∧ st.1.length = b + st.2 ∧ st.2 ≤ cap) →
      ((hop2Step env cap per st rid).1.Nodup ∧
        (∀ x ∈ (hop2Step env cap per st rid).1, x ≠ "") ∧
        (hop2Step env cap per st rid).1.length = b + (hop2Step env cap per st rid).2 ∧
        (hop2Step env cap per st rid).2 ≤ cap) := by
  intro st rid h
  unfold hop2Step
  split
  · exact h
  · refine foldl_preserve (fun s : List String × Nat =>
      s.1.Nodup ∧ (∀ x ∈ s.1, x ≠ "") ∧ s.1.length = b + s.2 ∧ s.2 ≤ cap)
      _ ?_ _ _ h
    intro s r2 hs
    split
    · exact hs
    · rename_i hcnt
      split
      · rename_i hnew
        refine ⟨?_, ?_, ?_, ?_⟩
        · rw [List.nodup_append]
          refine ⟨hs.1, List.nodup_singleton _, ?_⟩
          intro a ha hb2
          rw [List.mem_singleton] at hb2
          subst hb2
          exact hnew.2 ha
        · intro x hx
          rw [List.mem_append, List.mem_singleton] at hx
          rcases hx with hx | rfl
          · exact hs.2.1 x hx
          · exact hnew.1
        · have := hs.2.2.1
          simp only [List.length_append, List.length_singleton]
          omega
        · have := hcnt
          omega
      · exact hs

theorem collect_core (env : String → Int → List RefOut) (h1cap : Int) (capT : Nat)
    (per : Int) (seeds : List String) :
    ((((hop1Collect env h1cap seeds).take h1cap.toNat).foldl
        (hop2Step env capT per) (hop1Collect env h1cap seeds, 0)).1.Nodup) ∧
    (∀ x ∈ (((hop1Collect env h1cap seeds).take h1cap.toNat).foldl
        (hop2Step env capT per) (hop1Collect env h1cap seeds, 0)).1, x ≠ "") ∧
    ((((hop1Collect env h1cap seeds).take h1cap.toNat).foldl
        (hop2Step env capT per) (hop1Collect env h1cap seeds, 0)).1.length ≤
      5 * h1cap.toNat + capT) := by
  obtain ⟨n1, e1, l1⟩ := hop1Collect_props env h1cap seeds
  have hfold := foldl_preserve (fun s : List String × Nat =>
      s.1.Nodup ∧ (∀ x ∈ s.1, x ≠ "") ∧
        s.1.length = (hop1Collect env h1cap seeds).length + s.2 ∧ s.2 ≤ capT)
    (hop2Step env capT per) (hop2Step_preserve env capT per _)
    ((hop1Collect env h1cap seeds).take h1cap.toNat)
    (hop1Collect env h1cap seeds, 0) ⟨n1, e1, by simp, Nat.zero_le _⟩
  obtain ⟨gn, ge, gl, gc⟩ := hfold
  exact ⟨gn, ge, by omega⟩

/-- C1 (amended): for every oracle, seed list and `max_refs`, the evidence
id list returned by the expander contains no duplicates and only non-empty
ids, appended in discovery order; seed ids are NOT excluded — a seed that
is referenced by another seed appears in the result (see the
counterexample). -/
theorem c1_evidence_dedup (env : String → Int → List RefOut)
    (index primary_ids : List String) (max_refs : Int) :
    ((_collect_evidence_from_references env index primary_ids max_refs).1).Nodup ∧
    ∀ x ∈ (_collect_evidence_from_references env index primary_ids max_refs).1,
      x ≠ "" := by
  have h := collect_core env (max 5 (min 20 max_refs))
    (max 5 (min 20 (Int.fdiv max_refs 2))).toNat
    (max 3 (min 10 (max 5 (min 20 (Int.fdiv max_refs 2))))) primary_ids
  exact ⟨h.1, h.2.1⟩

/-- C1 witness: the deduplication invariant at a concrete expansion. -/
theorem c1_evidence_dedup_witness :
    ((_collect_evidence_from_references envTwoSeeds [] ["A", "B"] 100).1).Nodup :=
  (c1_evidence_dedup envTwoSeeds [] ["A", "B"] 100).1

/-- C2: for every oracle, seed list and `max_refs`, with
`hop1_cap = clamp(max_refs, 5, 20)` and
`hop2_total_cap = clamp(max_refs // 2, 5, 20)` (Python floor division),
the returned evidence list has at most `5 * hop1_cap + hop2_total_cap`
elements; moreover the whole expansion depends only on the first 5 seed
ids.  The per-seed hop-2 cap `clamp(hop2_total_cap, 3, 10)` and the
hop-2 traversal of only the first `hop1_cap` hop-1 ids with a full stop at
`hop2_total_cap` additions are part of the embedded definition. -/
theorem c2_evidence_bound (env : String → Int → List RefOut)
    (index primary_ids : List String) (max_refs : Int) :
    ((_collect_evidence_from_references env index primary_ids max_refs).1).length ≤
      5 * (max 5 (min 20 max_refs)).toNat +
        (max 5 (min 20 (Int.fdiv max_refs 2))).toNat ∧
    _collect_evidence_from_references env index primary_ids max_refs =
      _collect_evidence_from_references env index (primary_ids.take 5) max_refs := by
  constructor
  · exact (collect_core env (max 5 (min 20 max_refs))
      (max 5 (min 20 (Int.fdiv max_refs 2))).toNat
      (max 3 (min 10 (max 5 (min 20 (Int.fdiv max_refs 2))))) primary_ids).2.2
  · unfold _collect_evidence_from_references hop1Collect
    rw [List.take_take, Nat.min_self]

/-- C2 witness: the size bound at a concrete expansion with
`max_refs = 100`, where `hop1_cap = 20` and `hop2_total_cap = 20`. -/
theorem c2_evidence_bound_witness :
    ((_collect_evidence_from_references envTwoSeeds [] ["A", "B"] 100).1).length ≤
      5 * 20 + 20 :=
  (c2_evidence_bound envTwoSeeds [] ["A", "B"] 100).1

/-! Back-off schedule of `_request_with_backoff`. -/

theorem min_double_pow (d : ℚ) (hd : 0 < d) (k : Nat) :
    min (min (d * 2) 4 * 2 ^ k) 4 = min (d * 2 ^ (k + 1)) 4 := by
  rcases le_or_lt (d * 2) 4 with h | h
  · have he : d * 2 * 2 ^ k = d * 2 ^ (k + 1) := by ring
    rw [min_eq_left h, he]
  · have h2k : (1 : ℚ) ≤ 2 ^ k := by
      calc (1 : ℚ) = 1 ^ k := (one_pow k).symm
        _ ≤ 2 ^ k := by
          gcongr
          norm_num
    have h4 : (4 : ℚ) ≤ 4 * 2 ^ k := by nlinarith
    have h5 : (4 : ℚ) ≤ d * 2 ^ (k + 1) := by
      have : d * 2 ^ (k + 1) = (d * 2) * 2 ^ k := by ring
      nlinarith
    rw [min_eq_right h.le, min_eq_right h4, min_eq_right h5]

theorem backoff_sleeps_schedule (f : Nat → Nat) :
    ∀ (n i : Nat) (d : ℚ), 0 < d → d ≤ 4 →
      ∃ m, m ≤ n ∧
        (backoffAux f i n d).2 = (List.range m).map fun k => min (d * 2 ^ k) 4 := by
  intro n
  induction n with
  | zero =>
    intro i d h1 h2
    exact ⟨0, le_refl 0, rfl⟩
  | succ n ih =>
    intro i d h1 h2
    obtain ⟨m, hm, heq⟩ := ih (i + 1) (min (d * 2) 4)
      (lt_min (by positivity) (by norm_num)) (min_le_right _ _)
    have hcons : d :: (backoffAux f (i + 1) n (min (d * 2) 4)).2 =
        (List.range (m + 1)).map fun k => min (d * 2 ^ k) 4 := by
      rw [heq, List.range_succ_eq_map, List.map_cons, List.map_map]
      congr 1
      · rw [pow_zero, mul_one, min_eq_left h2]
      · apply List.map_congr_left
        intro k _
        simp only [Function.comp_apply, Nat.succ_eq_add_one]
        exact min_double_pow d h1 k
    simp only [backoffAux]
    split_ifs with hA hB hC
    · exact ⟨m + 1, by omega, hcons⟩
    · exact ⟨m + 1, by omega, hcons⟩
    · exact ⟨0, by omega, rfl⟩
    · exact ⟨0, by omega, rfl⟩

theorem backoff_httpError (f : Nat → Nat) :
    ∀ (n i : Nat) (d : ℚ) (j s : Nat),
      (backoffAux f i n d).1 = .httpError j s →
      i ≤ j ∧ j < i + n ∧ f j = s ∧ 400 ≤ s ∧ s < 600 ∧ s ≠ 429 ∧
        (500 ≤ s → j + 1 = i + n) := by
  intro n
  induction n with
  | zero =>
    intro i d j s h
    simp [backoffAux] at h
  | succ n ih =>
    intro i d j s h
    simp only [backoffAux] at h
    split_ifs at h with hA hB hC
    · obtain ⟨g1, g2, g3, g4, g5, g6, g7⟩ := ih (i + 1) (min (d * 2) 4) j s h
      exact ⟨by omega, by omega, g3, g4, g5, g6, by omega⟩
    · obtain ⟨g1, g2, g3, g4, g5, g6, g7⟩ := ih (i + 1) (min (d * 2) 4) j s h
      exact ⟨by omega, by omega, g3, g4, g5, g6, by omega⟩
    · simp only [FetchOutcome.httpError.injEq] at h
      obtain ⟨rfl, rfl⟩ := h
      refine ⟨le_refl _, by omega, rfl, hB.1, hB.2, hA, ?_⟩
      intro hs
      have hn0 : n = 0 := by
        by_contra hne
        exact hC ⟨hs, hB.2, by omega⟩
      omega

theorem backoff_ok (f : Nat → Nat) :
    ∀ (n i : Nat) (d : ℚ) (j : Nat),
      (backoffAux f i n d).1 = .ok j →
      i ≤ j ∧ j < i + n ∧ ¬(400 ≤ f j ∧ f j < 600) := by
  intro n
  induction n with
  | zero =>
    intro i d j h
    simp [backoffAux] at h
  | succ n ih =>
    intro i d j h
    simp only [backoffAux] at h
    split_ifs at h with hA hB hC
    · obtain ⟨g1, g2, g3⟩ := ih (i + 1) _ j h
      exact ⟨by omega, by omega, g3⟩
    · obtain ⟨g1, g2, g3⟩ := ih (i + 1) _ j h
      exact ⟨by omega, by omega, g3⟩
    · simp only [FetchOutcome.ok.injEq] at h
      subst h
      exact ⟨le_refl _, by omega, hB⟩

theorem backoff_exhausted (f : Nat → Nat) :
    ∀ (n i : Nat) (d : ℚ),
      (backoffAux f i n d).1 = .exhausted →
      (∀ j, j < n → (f (i + j) = 429 ∨ (500 ≤ f (i + j) ∧ f (i + j) < 600))) ∧
      (1 ≤ n → f (i + n - 1) = 429) := by
  intro n
  induction n with
  | zero =>
    intro i d _
    exact ⟨fun j hj => absurd hj (by omega), fun h1 => absurd h1 (by omega)⟩
  | succ n ih =>
    intro i d h
    simp only [backoffAux] at h
    split_ifs at h with hA hB hC
    · obtain ⟨g1, g2⟩ := ih (i + 1) _ h
      constructor
      · intro j hj
        cases j with
        | zero => exact Or.inl (by simpa using hA)
        | succ j' =>
          have hidx : i + (j' + 1) = (i + 1) + j' := by omega
          rw [hidx]
          exact g1 j' (by omega)
      · intro _
        rcases Nat.eq_zero_or_pos n with h0 | h1
        · subst h0
          simpa using hA
        · have := g2 h1
          have hidx : i + (n + 1) - 1 = (i + 1) + n - 1 := by omega
          rw [hidx]
          exact this
    · obtain ⟨g1, g2⟩ := ih (i + 1) _ h
      constructor
      · intro j hj
        cases j with
        | zero => exact Or.inr (by simpa using ⟨hC.1, hB.2⟩)
        | succ j' =>
          have hidx : i + (j' + 1) = (i + 1) + j' := by omega
          rw [hidx]
          exact g1 j' (by omega)
      · intro _
        have := g2 hC.2.2
        have hidx : i + (n + 1) - 1 = (i + 1) + n - 1 := by omega
        rw [hidx]
        exact this

/-- C5: for every sequence of provider answers (attempt index ↦ HTTP
status), `_request_with_backoff` with its fixed budget of 3 attempts:
sleeps delays that start at 0.5s and double each retry, capped at 4.0s;
sleeps at most 3 times; returns a response only for a non-error status
within the budget; raises an HTTP error only for a status in [400, 600)
other than 429, and for a 5xx only on the final attempt (earlier 5xx are
retried); and exhausts (returns `None`) only when the final attempt got a
429 and every attempt got a 429 or a 5xx — both error classes consume the
same attempt budget, and exhaustion or a raised error is a fetch failure,
never a response. -/
theorem c5_backoff_contract (f : Nat → Nat) :
    ((_request_with_backoff f 3).2 =
      (List.range (_request_with_backoff f 3).2.length).map
        fun k => min ((1 : ℚ) / 2 * 2 ^ k) 4) ∧
    (_request_with_backoff f 3).2.length ≤ 3 ∧
    (∀ j, (_request_with_backoff f 3).1 = .ok j →
      j < 3 ∧ ¬(400 ≤ f j ∧ f j < 600)) ∧
    (∀ j s, (_request_with_backoff f 3).1 = .httpError j s →
      j < 3 ∧ f j = s ∧ 400 ≤ s ∧ s < 600 ∧ s ≠ 429 ∧ (500 ≤ s → j = 2)) ∧
    ((_request_with_backoff f 3).1 = .exhausted →
      f 2 = 429 ∧ ∀ j, j < 3 → (f j = 429 ∨ (500 ≤ f j ∧ f j < 600))) := by
  obtain ⟨m, hm, heq⟩ :=
    backoff_sleeps_schedule f 3 0 (1 / 2) (by norm_num) (by norm_num)
  unfold _request_with_backoff
  refine ⟨?_, ?_, ?_, ?_, ?_⟩
  · rw [heq, List.length_map, List.length_range]
  · rw [heq, List.length_map, List.length_range]
    exact hm
  · intro j h
    obtain ⟨g1, g2, g3⟩ := backoff_ok f 3 0 (1 / 2) j h
    exact ⟨by omega, g3⟩
  · intro j s h
    obtain ⟨g1, g2, g3, g4, g5, g6, g7⟩ := backoff_httpError f 3 0 (1 / 2) j s h
    exact ⟨by omega, g3, g4, g5, g6, fun hs => by have := g7 hs; omega⟩
  · intro h
    obtain ⟨g1, g2⟩ := backoff_exhausted f 3 0 (1 / 2) h
    refine ⟨by simpa using g2 (by omega), ?_⟩
    intro j hj
    simpa using g1 j hj

/-- C5 witness: with every attempt answering 429 the attempt budget is
exhausted after at most 3 back-off sleeps. -/
theorem c5_backoff_witness :
    (fun _ : Nat => (429 : Nat)) 2 = 429 ∧
    (_request_with_backoff (fun _ => (429 : Nat)) 3).2.length ≤ 3 :=
  ⟨((c5_backoff_contract (fun _ => 429)).2.2.2.2 (by decide)).1,
   (c5_backoff_contract (fun _ => 429)).2.1⟩

/-- C10 witness: concrete instances of both guard failures and the
transport-error degradation. -/
theorem c10_find_basis_paper_witness :
    find_basis_paper true "" .transportError = .error .valueError ∧
    find_basis_paper false "t" .transportError = .error .valueError ∧
    find_basis_paper true "t" .transportError = .ok [] :=
  ⟨(c10_find_basis_paper_guards true "" .transportError).1 (Or.inl rfl),
   (c10_find_basis_paper_guards false "t" .transportError).1 (Or.inr rfl),
   ((c10_find_basis_paper_guards true "t" .transportError).2 (by decide) rfl).1⟩

end Aristotle
